import Mathlib

/-!
Verification of the XML-to-Excel converter's core logic.

The repository's core (src/main.py, duplicated in src/gui.py) parses
NFe-like XML documents — already turned into nested dictionaries by
xmltodict — into flat invoice records, batches them over a candidate file
list with progress reporting, scans directories for .xml files, and
assembles a sorted table.

Shallow embedding conventions:
  * `Val` models a Python value as produced by xmltodict: `None`
    (`Val.null`), a string scalar, a list, or a string-keyed dict
    (association list with unique keys, insertion-ordered).
  * Python truthiness is `truthy`; `a or b` is `pyOr`.
  * Code that can raise (attribute errors on type-confused values, e.g.
    `.get` on a non-dict or `.replace` on a non-string) is embedded in
    `Except String`, the error value standing for the exception.
  * File contents are `Option Val`: `none` models bytes on which
    `xmltodict.parse` raises (caught by the `try/except`).
  * `String.splitOn`, `String.replace`, `<` on `String` and similar
    library functions do not reduce in the kernel, so executable
    counterparts over `String.data` (`splitDot`, `pyReplace`, orders via
    `List Char`) model the corresponding Python operations.
-/

/-- A Python/xmltodict value: None, a string scalar, a list, or a dict. -/
inductive Val where
  | null : Val
  | str : String → Val
  | list : List Val → Val
  | dict : List (String × Val) → Val

/-- Python truthiness of a `Val` (`bool(v)`). -/
def truthy : Val → Bool
  | Val.null => false
  | Val.str s => !s.data.isEmpty
  | Val.list vs => !vs.isEmpty
  | Val.dict kvs => !kvs.isEmpty

/-- `isinstance(v, dict)`. -/
def isDict : Val → Bool
  | Val.dict _ => true
  | _ => false

/-- Python `a or b`. -/
def pyOr (a b : Val) : Val := if truthy a then a else b

/-- First-match lookup in an association list (`part in cur` / `cur[part]`;
xmltodict dicts have unique keys). -/
def lookupKV : List (String × Val) → String → Option Val
  | [], _ => none
  | (k, v) :: tl, key => if k = key then some v else lookupKV tl key

/-- The loop body of `_get` (src/main.py lines 60-65) over an already split
path: walk one segment at a time; if the current value is not a dict or the
key is absent, return the default. -/
def resolveSegs (cur : Val) (segs : List String) (dflt : Val) : Val :=
  match segs with
  | [] => cur
  | p :: rest =>
    match cur with
    | Val.dict kvs =>
      match lookupKV kvs p with
      | some v => resolveSegs v rest dflt
      | none => dflt
    | _ => dflt

/-- Helper for `splitDot`. -/
def splitDotAux : List Char → List Char → List String
  | [], acc => [⟨acc.reverse⟩]
  | c :: cs, acc =>
    if c = '.' then (⟨acc.reverse⟩ : String) :: splitDotAux cs []
    else splitDotAux cs (c :: acc)

/-- Python's `path.split(".")` (src/main.py line 61): always non-empty,
`"".split(".") == [""]`. -/
def splitDot (s : String) : List String := splitDotAux s.data []

/-- `_get(d, path, default)` from src/main.py lines 48-65 (identical in
src/gui.py lines 30-37): dot-split the path and walk. -/
def _get (d : Val) (path : String) (dflt : Val) : Val :=
  resolveSegs d (splitDot path) dflt

/-- Specification-side predicate: walk the same segments, reporting
`some v` exactly when every step goes through a dict that has the key
(`none` when some step fails). Used to state when a path "resolves". -/
def resolvesTo (cur : Val) (segs : List String) : Option Val :=
  match segs with
  | [] => some cur
  | p :: rest =>
    match cur with
    | Val.dict kvs =>
      match lookupKV kvs p with
      | some v => resolvesTo v rest
      | none => none
    | _ => none

/-- Helper for `pyReplace`, with fuel (the fuel is always at least the
length of the text, so the `0, rest` row is never hit). -/
def pyReplaceAux (pat rep : List Char) : Nat → List Char → List Char
  | _, [] => []
  | 0, rest => rest
  | Nat.succ fuel, c :: cs =>
    if !pat.isEmpty && pat.isPrefixOf (c :: cs) then
      rep ++ pyReplaceAux pat rep fuel (List.drop (pat.length - 1) cs)
    else
      c :: pyReplaceAux pat rep fuel cs

/-- Python's `s.replace(pat, rep)`: replace every non-overlapping
occurrence of `pat`, scanning left to right (src/main.py line 101). -/
def pyReplace (s pat rep : String) : String :=
  ⟨pyReplaceAux pat.data rep.data s.data.length s.data⟩

/-- The seven address fields of a record (src/main.py lines 109-117),
each a raw `Val` exactly as the code stores whatever `dict.get` returns. -/
structure Address where
  dest_street : Val
  dest_number : Val
  dest_district : Val
  dest_city : Val
  dest_state : Val
  dest_zip : Val
  dest_country : Val

/-- The seven `end.get(key, "")` reads building the address dict
(src/main.py lines 110-116 / 123-129). -/
def readAddressFields (kvs : List (String × Val)) : Address :=
  { dest_street := (lookupKV kvs "xLgr").getD (Val.str "")
    dest_number := (lookupKV kvs "nro").getD (Val.str "")
    dest_district := (lookupKV kvs "xBairro").getD (Val.str "")
    dest_city := (lookupKV kvs "xMun").getD (Val.str "")
    dest_state := (lookupKV kvs "UF").getD (Val.str "")
    dest_zip := (lookupKV kvs "CEP").getD (Val.str "")
    dest_country := (lookupKV kvs "xPais").getD (Val.str "") }

/-- Reading the seven fields off a candidate block value: `.get` on a
non-dict raises `AttributeError`. -/
def readAddressBlock (blk : Val) : Except String Address :=
  match blk with
  | Val.dict kvs => Except.ok (readAddressFields kvs)
  | _ => Except.error "AttributeError: get on non-dict"

/-- `any(address.values())` (src/main.py line 120), in insertion order. -/
def anyAddress (a : Address) : Bool :=
  truthy a.dest_street || truthy a.dest_number || truthy a.dest_district ||
  truthy a.dest_city || truthy a.dest_state || truthy a.dest_zip ||
  truthy a.dest_country

/-- `_get(inf, "dest.enderDest", {}) or {}` (src/main.py line 108). -/
def destBlock (inf : Val) : Val :=
  pyOr (_get inf "dest.enderDest" (Val.dict [])) (Val.dict [])

/-- `_get(inf, "emit.enderEmit", {}) or {}` (src/main.py line 121). -/
def emitBlock (inf : Val) : Val :=
  pyOr (_get inf "emit.enderEmit" (Val.dict [])) (Val.dict [])

/-- The address extraction of src/main.py lines 108-130: read the seven
fields from the recipient block; if none of the seven values is truthy,
re-read them wholesale from the issuer block. -/
def extract_address (inf : Val) : Except String Address :=
  match readAddressBlock (destBlock inf) with
  | Except.error e => Except.error e
  | Except.ok a =>
    if anyAddress a then Except.ok a
    else readAddressBlock (emitBlock inf)

/-- The normalized output record (src/main.py lines 133-140). `key` and
`file_name` are always strings in any record the code returns; the other
fields hold whatever value the lookups produced. -/
structure InvoiceRecord where
  key : String
  note_id : Val
  issuer_name : Val
  recipient_name : Val
  dest_street : Val
  dest_number : Val
  dest_district : Val
  dest_city : Val
  dest_state : Val
  dest_zip : Val
  dest_country : Val
  file_name : String

/-- `note_id.replace("NFe", "") if note_id else ""` (src/main.py line
101): `.replace` on a truthy non-string raises `AttributeError`. -/
def keyFromNoteId (note_id : Val) : Except String String :=
  if truthy note_id then
    match note_id with
    | Val.str s => Except.ok (pyReplace s "NFe" "")
    | _ => Except.error "AttributeError: replace on non-string"
  else Except.ok ""

/-- Header-block selection, src/main.py lines 91-94: try
`nfeProc.NFe.infNFe`, and if that is not a dict, `NFe.infNFe`. -/
def selectHeader (data : Val) : Val :=
  let inf := _get data "nfeProc.NFe.infNFe" Val.null
  if isDict inf then inf else _get data "NFe.infNFe" Val.null

/-- Field extraction from an already selected header dict (src/main.py
lines 99-140), with the Python evaluation order of the two spots that can
raise (the key derivation, then the address reads). -/
def extractFromHeader (inf : Val) (fileName : String) : Except String InvoiceRecord :=
  match keyFromNoteId (_get inf "@Id" (Val.str "")) with
  | Except.error e => Except.error e
  | Except.ok key =>
    match extract_address inf with
    | Except.error e => Except.error e
    | Except.ok a =>
      Except.ok
        { key := key
          note_id := _get inf "@Id" (Val.str "")
          issuer_name := _get inf "emit.xNome" (Val.str "")
          recipient_name := _get inf "dest.xNome" (Val.str "")
          dest_street := a.dest_street
          dest_number := a.dest_number
          dest_district := a.dest_district
          dest_city := a.dest_city
          dest_state := a.dest_state
          dest_zip := a.dest_zip
          dest_country := a.dest_country
          file_name := fileName }

/-- Lift header extraction to the `Option`-returning shape of
`parse_nfe_file`. -/
def runHeader (inf : Val) (fileName : String) : Except String (Option InvoiceRecord) :=
  match extractFromHeader inf fileName with
  | Except.error e => Except.error e
  | Except.ok r => Except.ok (some r)

/-- `parse_nfe_file` (src/main.py lines 68-140, src/gui.py lines 40-93):
`none` content models bytes on which xmltodict raises (caught, returns
`None`); an unrecognized structure also returns `None`; a type-confused
tree can raise out of the function (`Except.error`). -/
def parse_nfe_file (content : Option Val) (fileName : String) :
    Except String (Option InvoiceRecord) :=
  match content with
  | none => Except.ok none
  | some data =>
    if isDict (selectHeader data) then runHeader (selectHeader data) fileName
    else Except.ok none

/-- A candidate file of the batch: its base name and its content. -/
structure Candidate where
  name : String
  content : Option Val

/-- Outcome of extracting one candidate. -/
def candOutcome (c : Candidate) : Except String (Option InvoiceRecord) :=
  parse_nfe_file c.content c.name

/-- The candidate is a per-file failure (parse error or unrecognized
structure): `parse_nfe_file` returns `None`. -/
def candFails (c : Candidate) : Bool :=
  match candOutcome c with
  | Except.ok none => true
  | _ => false

/-- The candidate yields a record. -/
def candSucceeds (c : Candidate) : Bool :=
  match candOutcome c with
  | Except.ok (some _) => true
  | _ => false

/-- The candidate raises out of `parse_nfe_file` (type-confused tree). -/
def candCrashes (c : Candidate) : Bool :=
  match candOutcome c with
  | Except.error _ => true
  | _ => false

/-- The record produced by a candidate, when there is one. -/
def recOf (c : Candidate) : Option InvoiceRecord :=
  match candOutcome c with
  | Except.ok (some r) => some r
  | _ => none

/-- Observable events of the batch loop: a `progress_sink` call and an
extraction attempt, in execution order. -/
inductive BEvent where
  | progress (cur tot : Nat) (name : String)
  | attempt (name : String) (success : Bool)

/-- The batch loop of src/gui.py lines 116-123 (and src/main.py lines
162-168, whose per-item debug log plays the progress role): for each
candidate, call the sink with the 1-based index, the total and the name,
then extract; append the name to `errors` on `None`, else append the
record. An exception escaping `parse_nfe_file` escapes the loop. -/
def runBatch (tot : Nat) :
    Nat → List Candidate → List BEvent × Except String (List InvoiceRecord × List String)
  | _, [] => ([], Except.ok ([], []))
  | i, c :: rest =>
    match candOutcome c with
    | Except.error e => ([BEvent.progress i tot c.name], Except.error e)
    | Except.ok none =>
      let res := runBatch tot (i + 1) rest
      (BEvent.progress i tot c.name :: BEvent.attempt c.name false :: res.1,
       match res.2 with
       | Except.ok pr => Except.ok (pr.1, c.name :: pr.2)
       | Except.error e => Except.error e)
    | Except.ok (some r) =>
      let res := runBatch tot (i + 1) rest
      (BEvent.progress i tot c.name :: BEvent.attempt c.name true :: res.1,
       match res.2 with
       | Except.ok pr => Except.ok (r :: pr.1, pr.2)
       | Except.error e => Except.error e)

/-- `parse_folder` over an already determined candidate list
(src/gui.py lines 100-125): the loop `for i, xml_path in
enumerate(xmls, start=1)` with `total = len(xmls)`. -/
def parse_folder (cands : List Candidate) :
    List BEvent × Except String (List InvoiceRecord × List String) :=
  runBatch cands.length 1 cands

/-- Specification-side: the failed file names, in candidate order. -/
def batchErrors (cands : List Candidate) : List String :=
  (cands.filter candFails).map Candidate.name

/-- Specification-side: the extracted records, in candidate order. -/
def batchRecords (cands : List Candidate) : List InvoiceRecord :=
  cands.filterMap recOf

/-- Specification-side: the expected event trace starting at index `i`. -/
def traceFrom (i tot : Nat) (cands : List Candidate) : List BEvent :=
  ((List.range' i cands.length).zip cands).flatMap
    (fun p => [BEvent.progress p.1 tot p.2.name,
               BEvent.attempt p.2.name (candSucceeds p.2)])

/-- Specification-side: the expected full event trace of a batch. -/
def batchTrace (cands : List Candidate) : List BEvent :=
  traceFrom 1 cands.length cands

/-- Project the `current` argument out of a progress event. -/
def progressCur : BEvent → Option Nat
  | BEvent.progress cur _ _ => some cur
  | _ => none

/-- Project the file name out of an extraction-attempt event. -/
def attemptName : BEvent → Option String
  | BEvent.attempt n _ => some n
  | _ => none

/-- Helper for `splitSlash`. -/
def splitSlashAux : List Char → List Char → List String
  | [], acc => [⟨acc.reverse⟩]
  | c :: cs, acc =>
    if c = '/' then (⟨acc.reverse⟩ : String) :: splitSlashAux cs []
    else splitSlashAux cs (c :: acc)

/-- Split a POSIX-style path on `/`. -/
def splitSlash (s : String) : List String := splitSlashAux s.data []

/-- The base name (final component) of a relative path. -/
def fileNameOf (p : String) : String := (splitSlash p).getLastD p

/-- `suf` is a literal suffix of `s` (case-sensitive). -/
def endsWithStr (s suf : String) : Bool := suf.data.isSuffixOf s.data

/-- Python's `str.lower` for ASCII names (specification-side, used to
state case-insensitive matching). -/
def lowerStr (s : String) : String := ⟨s.data.map Char.toLower⟩

/-- The `glob("**/*.xml")` filter of src/main.py line 158 / src/gui.py
line 97: on POSIX the pattern matches exactly the entries whose final
component ends with the literal lowercase `.xml`. -/
def globXmlMatch (p : String) : Bool := endsWithStr (fileNameOf p) ".xml"

/-- A directory-walk entry: its path relative to the scanned root and
whether it is a regular file. -/
structure FsEntry where
  path : String
  isFile : Bool

/-- The comparison key Python's `sorted` uses on `pathlib.Path` objects:
`PurePath.__lt__` compares the tuple of path components (the sep-split
parts), each component by code points — NOT the full path string (e.g.
`data/x.xml` sorts before `data-old/y.xml`, although as plain strings
`'-' < '/'` would reverse them). -/
def pathKey (p : String) : List (List Char) := (splitSlash p).map String.data

/-- Path ordering used by Python's `sorted` on paths: lexicographic on
the component sequence `pathKey`. -/
def pathLe (p q : String) : Prop := pathKey p ≤ pathKey q

instance : DecidableRel pathLe :=
  fun p q => inferInstanceAs (Decidable (pathKey p ≤ pathKey q))

instance : IsTotal String pathLe := ⟨fun a b => le_total (pathKey a) (pathKey b)⟩

instance : IsTrans String pathLe :=
  ⟨fun _ _ _ h1 h2 => le_trans (α := List (List Char)) h1 h2⟩

/-- Inverse of `splitSlash`, used to show `pathKey` is injective (so the
path order is antisymmetric). -/
def joinSlash : List String → String
  | [] => ""
  | [s] => s
  | s :: rest => s ++ "/" ++ joinSlash rest

/-- `iter_xml_files` (src/gui.py lines 96-97; inlined in src/main.py line
158): `sorted([p for p in root.glob("**/*.xml") if p.is_file()])` over a
modelled directory walk. -/
def iter_xml_files (fs : List FsEntry) : List String :=
  List.insertionSort pathLe
    ((fs.filter (fun e => e.isFile && globXmlMatch e.path)).map FsEntry.path)

/-- The table sort key: `sort_values(by=["key", "file_name"])`
(src/main.py line 255, src/gui.py line 333) — lexicographic on the pair,
ascending. `na_position="last"` concerns only genuine missing values
(NaN), and `key`/`file_name` are always strings in the code's records, so
it has no effect. -/
def recLE (a b : InvoiceRecord) : Prop :=
  a.key.data < b.key.data ∨
    (a.key.data = b.key.data ∧ a.file_name.data ≤ b.file_name.data)

instance : DecidableRel recLE :=
  fun a b =>
    inferInstanceAs (Decidable (a.key.data < b.key.data ∨
      (a.key.data = b.key.data ∧ a.file_name.data ≤ b.file_name.data)))

instance : IsTotal InvoiceRecord recLE :=
  ⟨fun a b => by
    rcases lt_trichotomy a.key.data b.key.data with h | h | h
    · exact Or.inl (Or.inl h)
    · rcases le_total a.file_name.data b.file_name.data with hf | hf
      · exact Or.inl (Or.inr ⟨h, hf⟩)
      · exact Or.inr (Or.inr ⟨h.symm, hf⟩)
    · exact Or.inr (Or.inl h)⟩

instance : IsTrans InvoiceRecord recLE :=
  ⟨fun a b c hab hbc => by
    rcases hab with h1 | ⟨h1e, h1f⟩
    · rcases hbc with h2 | ⟨h2e, h2f⟩
      · exact Or.inl (lt_trans h1 h2)
      · exact Or.inl (lt_of_lt_of_le h1 (le_of_eq h2e))
    · rcases hbc with h2 | ⟨h2e, h2f⟩
      · exact Or.inl (lt_of_le_of_lt (le_of_eq h1e) h2)
      · exact Or.inr ⟨h1e.trans h2e, le_trans h1f h2f⟩⟩

/-- The table assembly sort (a stable comparison sort by the composite
key, as pandas' lexsort): the ordered table. -/
def assemble (records : List InvoiceRecord) : List InvoiceRecord :=
  List.insertionSort recLE records

/-- Specification-side rendering of the claim "every record whose key is
the empty string is placed after all records with a non-empty key": once
an empty-key record appears, only empty-key records follow. -/
def emptyKeysLast : List InvoiceRecord → Bool
  | [] => true
  | r :: rs =>
    (if r.key.data.isEmpty then rs.all (fun b => b.key.data.isEmpty) else true)
      && emptyKeysLast rs

/-- The value is a string scalar. -/
def isStr : Val → Bool
  | Val.str _ => true
  | _ => false

/-- All seven address fields are string scalars. -/
def addrFieldsStr (a : Address) : Bool :=
  isStr a.dest_street && isStr a.dest_number && isStr a.dest_district &&
  isStr a.dest_city && isStr a.dest_state && isStr a.dest_zip &&
  isStr a.dest_country

/-- The candidate address block is a dict whose seven reads (with their
empty-string defaults) are all string scalars. -/
def blockFieldsStr (blk : Val) : Bool :=
  match blk with
  | Val.dict kvs => addrFieldsStr (readAddressFields kvs)
  | _ => false

/-- Every value the extractor reads off this header block (with its
defaults) is a string scalar. -/
def headerSourcesStr (inf : Val) : Bool :=
  isStr (_get inf "@Id" (Val.str "")) &&
  isStr (_get inf "emit.xNome" (Val.str "")) &&
  isStr (_get inf "dest.xNome" (Val.str "")) &&
  blockFieldsStr (destBlock inf) &&
  blockFieldsStr (emitBlock inf)

/-- The record's nine lookup-valued fields are all string scalars
(`key` and `file_name` are strings by construction). -/
def recordFieldsStr (r : InvoiceRecord) : Bool :=
  isStr r.note_id && isStr r.issuer_name && isStr r.recipient_name &&
  isStr r.dest_street && isStr r.dest_number && isStr r.dest_district &&
  isStr r.dest_city && isStr r.dest_state && isStr r.dest_zip &&
  isStr r.dest_country

/-- A document whose header sits under the full envelope
`nfeProc.NFe.infNFe`. -/
def wrapProc (inner : Val) : Val :=
  Val.dict [("nfeProc", Val.dict [("NFe", Val.dict [("infNFe", inner)])])]

/-- The otherwise-identical document without the `nfeProc` container. -/
def wrapBare (inner : Val) : Val :=
  Val.dict [("NFe", Val.dict [("infNFe", inner)])]

/-- Concrete all-string record used by witnesses (only `key` and
`file_name` vary). -/
def mkRecKF (k fn : String) : InvoiceRecord :=
  { key := k
    note_id := Val.str ""
    issuer_name := Val.str ""
    recipient_name := Val.str ""
    dest_street := Val.str ""
    dest_number := Val.str ""
    dest_district := Val.str ""
    dest_city := Val.str ""
    dest_state := Val.str ""
    dest_zip := Val.str ""
    dest_country := Val.str ""
    file_name := fn }

/-- Concrete header whose recipient address block carries one non-empty
field. -/
def infC2 : Val :=
  Val.dict [("dest", Val.dict [("enderDest", Val.dict [("xMun", Val.str "Springfield")])])]

/-- Concrete header with no recipient address but an issuer address. -/
def infC2b : Val :=
  Val.dict [("emit", Val.dict [("enderEmit", Val.dict [("xMun", Val.str "Shelbyville")])])]

/-- Concrete document whose identifier contains the token twice. -/
def docC3 : Val := wrapBare (Val.dict [("@Id", Val.str "NFe123NFe456")])

/-- The record `docC3` extracts to. -/
def recC3 : InvoiceRecord :=
  { key := "123456"
    note_id := Val.str "NFe123NFe456"
    issuer_name := Val.str ""
    recipient_name := Val.str ""
    dest_street := Val.str ""
    dest_number := Val.str ""
    dest_district := Val.str ""
    dest_city := Val.str ""
    dest_state := Val.str ""
    dest_zip := Val.str ""
    dest_country := Val.str ""
    file_name := "f.xml" }

/-- Concrete accepted document whose `emit.xNome` element is present but
empty: xmltodict renders it as `None`. -/
def cexDocC9 : Val := wrapBare (Val.dict [("emit", Val.dict [("xNome", Val.null)])])

/-- The record `cexDocC9` extracts to: its `issuer_name` is null. -/
def cexRecC9 : InvoiceRecord :=
  { key := ""
    note_id := Val.str ""
    issuer_name := Val.null
    recipient_name := Val.str ""
    dest_street := Val.str ""
    dest_number := Val.str ""
    dest_district := Val.str ""
    dest_city := Val.str ""
    dest_state := Val.str ""
    dest_zip := Val.str ""
    dest_country := Val.str ""
    file_name := "n.xml" }

/-- Concrete document all of whose extracted source values are strings. -/
def docC9w : Val :=
  wrapProc (Val.dict
    [("@Id", Val.str "NFe1"),
     ("emit", Val.dict [("xNome", Val.str "ACME"),
                        ("enderEmit", Val.dict [("xMun", Val.str "Springfield")])]),
     ("dest", Val.dict [("xNome", Val.str "Bob")])])

/-- The record `docC9w` extracts to (all fields strings; the address comes
wholesale from the issuer block). -/
def recC9w : InvoiceRecord :=
  { key := "1"
    note_id := Val.str "NFe1"
    issuer_name := Val.str "ACME"
    recipient_name := Val.str "Bob"
    dest_street := Val.str ""
    dest_number := Val.str ""
    dest_district := Val.str ""
    dest_city := Val.str "Springfield"
    dest_state := Val.str ""
    dest_zip := Val.str ""
    dest_country := Val.str ""
    file_name := "s.xml" }

/-- A structurally valid candidate file. -/
def candGood : Candidate :=
  { name := "good.xml", content := some (wrapBare (Val.dict [("@Id", Val.str "NFe2")])) }

/-- A candidate whose bytes fail XML parsing. -/
def candBad : Candidate := { name := "bad.xml", content := none }

/-- The record `candGood` extracts to. -/
def recGood : InvoiceRecord :=
  { key := "2"
    note_id := Val.str "NFe2"
    issuer_name := Val.str ""
    recipient_name := Val.str ""
    dest_street := Val.str ""
    dest_number := Val.str ""
    dest_district := Val.str ""
    dest_city := Val.str ""
    dest_state := Val.str ""
    dest_zip := Val.str ""
    dest_country := Val.str ""
    file_name := "good.xml" }

/-- A directory walk: a lowercase .xml file at the root, a .xml file in a
subdirectory, the subdirectory itself, and a non-xml file. -/
def fsE1 : FsEntry := { path := "b.xml", isFile := true }

/-- See `fsE1`. -/
def fsE2 : FsEntry := { path := "sub/a.xml", isFile := true }

/-- See `fsE1`. -/
def fsE3 : FsEntry := { path := "sub", isFile := false }

/-- See `fsE1`. -/
def fsE4 : FsEntry := { path := "notes.txt", isFile := true }

/-- A walk containing a single regular file with an uppercase extension. -/
def cexFs : List FsEntry := [{ path := "A.XML", isFile := true }]

/-- A file under a directory whose name is a proper prefix of another
directory's name — the case where component order and full-string order
disagree. -/
def fsD1 : FsEntry := { path := "data/x.xml", isFile := true }

/-- See `fsD1`. -/
def fsD2 : FsEntry := { path := "data-old/y.xml", isFile := true }

/-- A record with an empty key (its file name sorts late). -/
def cexRecA : InvoiceRecord := mkRecKF "" "b.xml"

/-- A record with a non-empty key (its file name sorts early). -/
def cexRecB : InvoiceRecord := mkRecKF "1" "a.xml"

/-! ## Theorems -/

theorem resolveSegs_of_resolvesTo_none (segs : List String) :
    ∀ (d dflt : Val), resolvesTo d segs = none → resolveSegs d segs dflt = dflt := by
  induction segs with
  | nil => intro d dflt h; simp [resolvesTo] at h
  | cons p rest ih =>
    intro d dflt h
    cases d with
    | null => rfl
    | str s => rfl
    | list vs => rfl
    | dict kvs =>
      simp only [resolvesTo] at h
      simp only [resolveSegs]
      cases hk : lookupKV kvs p with
      | none => rfl
      | some v =>
        rw [hk] at h
        exact ih v dflt h

theorem resolveSegs_of_resolvesTo_some (segs : List String) :
    ∀ (d v dflt : Val), resolvesTo d segs = some v → resolveSegs d segs dflt = v := by
  induction segs with
  | nil =>
    intro d v dflt h
    simp only [resolvesTo, Option.some.injEq] at h
    simp [resolveSegs, h]
  | cons p rest ih =>
    intro d v dflt h
    cases d with
    | null => simp [resolvesTo] at h
    | str s => simp [resolvesTo] at h
    | list vs => simp [resolvesTo] at h
    | dict kvs =>
      simp only [resolvesTo] at h
      simp only [resolveSegs]
      cases hk : lookupKV kvs p with
      | none => rw [hk] at h; exact absurd h (by simp)
      | some w =>
        rw [hk] at h
        exact ih w v dflt h

/-- C5: for every tree and every dotted path, whenever at some step the
current value is not a dict or the segment key is absent (i.e. the path
does not fully resolve), `_get` returns the supplied default; `_get` is a
total function over arbitrary malformed trees, so it never raises. -/
theorem get_default_on_missing (d : Val) (path : String) (dflt : Val)
    (h : resolvesTo d (splitDot path) = none) : _get d path dflt = dflt :=
  resolveSegs_of_resolvesTo_none (splitDot path) d dflt h

/-- Witness for C5: a scalar tree with a two-segment path fails at the
first step and yields the default. -/
theorem get_default_on_missing_witness :
    resolvesTo (Val.str "leaf") (splitDot "a.b") = none ∧
      _get (Val.str "leaf") "a.b" (Val.str "DEFAULT") = Val.str "DEFAULT" :=
  ⟨rfl, get_default_on_missing (Val.str "leaf") "a.b" (Val.str "DEFAULT") rfl⟩

/-- C10: for every tree and dotted path that fully resolves, `_get`
returns the stored value verbatim — whatever the default and even when the
stored value is null, empty or otherwise falsy — so a present-but-null
leaf is distinguishable from an absent one. -/
theorem get_verbatim_on_present (d : Val) (path : String) (v dflt : Val)
    (h : resolvesTo d (splitDot path) = some v) : _get d path dflt = v :=
  resolveSegs_of_resolvesTo_some (splitDot path) d v dflt h

/-- Witness for C10: a present-but-null leaf is returned verbatim, not the
(non-null) default. -/
theorem get_verbatim_on_present_witness :
    resolvesTo (Val.dict [("a", Val.null)]) (splitDot "a") = some Val.null ∧
      _get (Val.dict [("a", Val.null)]) "a" (Val.str "DEFAULT") = Val.null ∧
      Val.null ≠ Val.str "DEFAULT" :=
  ⟨rfl,
   get_verbatim_on_present (Val.dict [("a", Val.null)]) "a" Val.null (Val.str "DEFAULT") rfl,
   fun h => Val.noConfusion h⟩

/-- C2: `extract_address` returns the seven fields read (with empty-string
defaults) from the recipient sub-block `dest.enderDest`; exactly when all
seven values so read are empty (Python-falsy: empty string, `None`, empty
collections), the entire result is instead the seven fields read the same
way from the issuer sub-block `emit.enderEmit` — wholesale substitution,
never a per-field mix; if both blocks yield nothing, the result is the
seven empty-string defaults (`readAddressFields []`). -/
theorem extract_address_fallback (inf : Val) :
    (∀ D, destBlock inf = Val.dict D →
      (anyAddress (readAddressFields D) = true →
          extract_address inf = Except.ok (readAddressFields D)) ∧
      (anyAddress (readAddressFields D) = false →
          ∀ E, emitBlock inf = Val.dict E →
            extract_address inf = Except.ok (readAddressFields E))) ∧
    (destBlock inf = Val.dict [] → emitBlock inf = Val.dict [] →
      extract_address inf = Except.ok (readAddressFields [])) := by
  constructor
  · intro D hD
    constructor
    · intro hAny
      unfold extract_address
      rw [hD]
      simp [readAddressBlock, hAny]
    · intro hAny E hE
      unfold extract_address
      rw [hD]
      simp [readAddressBlock, hAny, hE]
  · intro hD hE
    have hAny : anyAddress (readAddressFields []) = false := rfl
    unfold extract_address
    rw [hD]
    simp [readAddressBlock, hAny, hE]

/-- Witness for C2: a populated recipient block is used as is, and a
document with an empty recipient block and a populated issuer block gets
the issuer block wholesale. -/
theorem extract_address_fallback_witness :
    destBlock infC2 = Val.dict [("xMun", Val.str "Springfield")] ∧
      anyAddress (readAddressFields [("xMun", Val.str "Springfield")]) = true ∧
      extract_address infC2 =
        Except.ok (readAddressFields [("xMun", Val.str "Springfield")]) ∧
      extract_address infC2b =
        Except.ok (readAddressFields [("xMun", Val.str "Shelbyville")]) :=
  ⟨rfl, rfl,
   ((extract_address_fallback infC2).1 _ rfl).1 rfl,
   ((extract_address_fallback infC2b).1 [] rfl).2 rfl _ rfl⟩

theorem extractFromHeader_ok_inv (inf : Val) (nm : String) (r : InvoiceRecord)
    (h : extractFromHeader inf nm = Except.ok r) :
    ∃ a, extract_address inf = Except.ok a ∧
      keyFromNoteId (_get inf "@Id" (Val.str "")) = Except.ok r.key ∧
      r.note_id = _get inf "@Id" (Val.str "") ∧
      r.issuer_name = _get inf "emit.xNome" (Val.str "") ∧
      r.recipient_name = _get inf "dest.xNome" (Val.str "") ∧
      r.dest_street = a.dest_street ∧ r.dest_number = a.dest_number ∧
      r.dest_district = a.dest_district ∧ r.dest_city = a.dest_city ∧
      r.dest_state = a.dest_state ∧ r.dest_zip = a.dest_zip ∧
      r.dest_country = a.dest_country ∧ r.file_name = nm := by
  unfold extractFromHeader at h
  cases hk : keyFromNoteId (_get inf "@Id" (Val.str "")) with
  | error e => rw [hk] at h; exact absurd h (by simp)
  | ok key =>
    rw [hk] at h
    cases ha : extract_address inf with
    | error e => rw [ha] at h; exact absurd h (by simp)
    | ok a =>
      rw [ha] at h
      simp only [Except.ok.injEq] at h
      subst h
      exact ⟨a, rfl, rfl, rfl, rfl, rfl, rfl, rfl, rfl, rfl, rfl, rfl, rfl, rfl⟩

theorem parse_ok_some_inv (content : Option Val) (nm : String) (r : InvoiceRecord)
    (h : parse_nfe_file content nm = Except.ok (some r)) :
    ∃ data, content = some data ∧ isDict (selectHeader data) = true ∧
      extractFromHeader (selectHeader data) nm = Except.ok r := by
  cases content with
  | none => exact absurd h (by simp [parse_nfe_file])
  | some data =>
    have h2 : (if isDict (selectHeader data) = true then runHeader (selectHeader data) nm
        else (Except.ok none : Except String (Option InvoiceRecord))) = Except.ok (some r) := h
    by_cases hd : isDict (selectHeader data) = true
    · rw [if_pos hd] at h2
      unfold runHeader at h2
      cases he : extractFromHeader (selectHeader data) nm with
      | error e => rw [he] at h2; exact absurd h2 (by simp)
      | ok r2 =>
        rw [he] at h2
        simp only [Except.ok.injEq, Option.some.injEq] at h2
        exact ⟨data, rfl, hd, by rw [he, h2]⟩
    · rw [if_neg hd] at h2
      exact absurd h2 (by simp)

/-- C3: in every record the extractor accepts, `key` is `note_id` with
every (left-to-right, non-overlapping) occurrence of the literal substring
`"NFe"` removed, and when `note_id` is empty (or, more generally, falsy)
`key` is the empty string. -/
theorem parse_key_strips_NFe (content : Option Val) (nm : String) (r : InvoiceRecord)
    (h : parse_nfe_file content nm = Except.ok (some r)) :
    (∀ s, r.note_id = Val.str s → r.key = pyReplace s "NFe" "") ∧
    (truthy r.note_id = false → r.key = "") := by
  obtain ⟨data, -, hd, he⟩ := parse_ok_some_inv content nm r h
  obtain ⟨a, -, hkey, hnote, -⟩ := extractFromHeader_ok_inv _ nm r he
  constructor
  · intro s hs
    rw [show _get (selectHeader data) "@Id" (Val.str "") = Val.str s from hnote.symm.trans hs] at hkey
    by_cases ht : truthy (Val.str s) = true
    · simp only [keyFromNoteId, ht, if_true, Except.ok.injEq] at hkey
      exact hkey.symm
    · have ht2 : truthy (Val.str s) = false := by
        revert ht; cases truthy (Val.str s) <;> simp
      simp only [keyFromNoteId, ht2, Bool.false_eq_true, if_false, Except.ok.injEq] at hkey
      have hsd : s.data = [] := by
        have hh := ht2
        unfold truthy at hh
        simpa using hh
      have hs0 : s = "" := by
        cases s with
        | mk l => cases hsd; rfl
      rw [hs0, ← hkey]
      rfl
  · intro ht
    rw [← hnote] at hkey
    simp only [keyFromNoteId, ht, Bool.false_eq_true, if_false, Except.ok.injEq] at hkey
    exact hkey.symm

/-- Witness for C3: a document whose `@Id` is `"NFe123NFe456"` yields
`key = "123456"` — both occurrences of the token removed. -/
theorem parse_key_strips_NFe_witness :
    parse_nfe_file (some docC3) "f.xml" = Except.ok (some recC3) ∧
      recC3.key = pyReplace "NFe123NFe456" "NFe" "" ∧
      recC3.key = "123456" := by
  have h := parse_key_strips_NFe (some docC3) "f.xml" recC3 rfl
  exact ⟨rfl, h.1 "NFe123NFe456" rfl, rfl⟩

theorem selectHeader_eq (d : Val) :
    selectHeader d =
      (if isDict (_get d "nfeProc.NFe.infNFe" Val.null) = true
       then _get d "nfeProc.NFe.infNFe" Val.null
       else _get d "NFe.infNFe" Val.null) := rfl

theorem parse_nfe_file_some_eq (data : Val) (nm : String) :
    parse_nfe_file (some data) nm =
      (if isDict (selectHeader data) = true then runHeader (selectHeader data) nm
       else Except.ok none) := rfl

/-- C4: the extractor selects the header block by trying
`nfeProc.NFe.infNFe` first and `NFe.infNFe` second, using the first that
resolves to a dict; if neither is a dict, the document yields a per-file
failure (`None`); and wrapping the same header in the `nfeProc` envelope
or leaving it bare yields exactly the same outcome. -/
theorem parse_shape_fallback (data : Val) (nm : String) :
    (isDict (_get data "nfeProc.NFe.infNFe" Val.null) = true →
      parse_nfe_file (some data) nm =
        runHeader (_get data "nfeProc.NFe.infNFe" Val.null) nm) ∧
    (isDict (_get data "nfeProc.NFe.infNFe" Val.null) = false →
      isDict (_get data "NFe.infNFe" Val.null) = true →
      parse_nfe_file (some data) nm = runHeader (_get data "NFe.infNFe" Val.null) nm) ∧
    (isDict (_get data "nfeProc.NFe.infNFe" Val.null) = false →
      isDict (_get data "NFe.infNFe" Val.null) = false →
      parse_nfe_file (some data) nm = Except.ok none) ∧
    (∀ inner fn, parse_nfe_file (some (wrapProc inner)) fn =
      parse_nfe_file (some (wrapBare inner)) fn) := by
  refine ⟨?_, ?_, ?_, ?_⟩
  · intro h1
    have hsel : selectHeader data = _get data "nfeProc.NFe.infNFe" Val.null := by
      rw [selectHeader_eq, if_pos h1]
    rw [parse_nfe_file_some_eq, hsel, if_pos h1]
  · intro h1 h2
    have hsel : selectHeader data = _get data "NFe.infNFe" Val.null := by
      rw [selectHeader_eq, if_neg (by simp [h1])]
    rw [parse_nfe_file_some_eq, hsel, if_pos h2]
  · intro h1 h2
    have hsel : selectHeader data = _get data "NFe.infNFe" Val.null := by
      rw [selectHeader_eq, if_neg (by simp [h1])]
    rw [parse_nfe_file_some_eq, hsel, if_neg (by simp [h2])]
  · intro inner fn
    have e1 : _get (wrapProc inner) "nfeProc.NFe.infNFe" Val.null = inner := rfl
    have e2 : _get (wrapProc inner) "NFe.infNFe" Val.null = Val.null := rfl
    have e3 : _get (wrapBare inner) "nfeProc.NFe.infNFe" Val.null = Val.null := rfl
    have e4 : _get (wrapBare inner) "NFe.infNFe" Val.null = inner := rfl
    have pProc : selectHeader (wrapProc inner) =
        (if isDict inner = true then inner else Val.null) := by
      rw [selectHeader_eq, e1, e2]
    have pBare : selectHeader (wrapBare inner) = inner := by
      rw [selectHeader_eq, e3, e4]
      rfl
    by_cases hi : isDict inner = true
    · rw [parse_nfe_file_some_eq, parse_nfe_file_some_eq, pProc, pBare, if_pos hi,
        if_pos hi]
    · rw [parse_nfe_file_some_eq, parse_nfe_file_some_eq, pProc, pBare, if_neg hi,
        if_neg hi]
      rfl

/-- Witness for C4: a minimal enveloped document selects its header via
the first path, a bare one via the second, and the two parses agree. -/
theorem parse_shape_fallback_witness :
    isDict (_get (wrapProc (Val.dict [])) "nfeProc.NFe.infNFe" Val.null) = true ∧
      parse_nfe_file (some (wrapProc (Val.dict []))) "w.xml" =
        runHeader (Val.dict []) "w.xml" ∧
      parse_nfe_file (some (wrapBare (Val.dict []))) "w.xml" =
        runHeader (Val.dict []) "w.xml" ∧
      parse_nfe_file (some (wrapProc (Val.dict []))) "w.xml" =
        parse_nfe_file (some (wrapBare (Val.dict []))) "w.xml" := by
  refine ⟨rfl, ?_, ?_, ?_⟩
  · exact (parse_shape_fallback (wrapProc (Val.dict [])) "w.xml").1 rfl
  · exact (parse_shape_fallback (wrapBare (Val.dict [])) "w.xml").2.1 rfl rfl
  · exact (parse_shape_fallback (wrapProc (Val.dict [])) "w.xml").2.2.2 (Val.dict []) "w.xml"

theorem blockFieldsStr_cases (blk : Val) (h : blockFieldsStr blk = true) :
    ∃ kvs, blk = Val.dict kvs ∧ addrFieldsStr (readAddressFields kvs) = true := by
  cases blk with
  | dict kvs => exact ⟨kvs, rfl, h⟩
  | null => simp [blockFieldsStr] at h
  | str s => simp [blockFieldsStr] at h
  | list vs => simp [blockFieldsStr] at h

theorem extract_address_fieldsStr (inf : Val) (a : Address)
    (ha : extract_address inf = Except.ok a)
    (h4 : blockFieldsStr (destBlock inf) = true)
    (h5 : blockFieldsStr (emitBlock inf) = true) :
    addrFieldsStr a = true := by
  obtain ⟨D, hD, hDs⟩ := blockFieldsStr_cases _ h4
  obtain ⟨E, hE, hEs⟩ := blockFieldsStr_cases _ h5
  unfold extract_address at ha
  rw [hD] at ha
  simp only [readAddressBlock] at ha
  by_cases hAny : anyAddress (readAddressFields D) = true
  · rw [if_pos hAny] at ha
    simp only [Except.ok.injEq] at ha
    rw [← ha]
    exact hDs
  · rw [if_neg hAny] at ha
    rw [hE] at ha
    simp only [readAddressBlock, Except.ok.injEq] at ha
    rw [← ha]
    exact hEs

/-- C9 (amended): `key` and `file_name` are strings by construction in
every record the extractor returns, and whenever every source value the
extractor reads off the selected header (with its empty-string defaults)
is a string scalar, every field of the record is a string. A
present-but-empty (null) or non-scalar element is copied into its field
verbatim instead (see the counterexample). -/
theorem parse_fields_str_of_sources_str (data : Val) (nm : String) (r : InvoiceRecord)
    (h : parse_nfe_file (some data) nm = Except.ok (some r))
    (hs : headerSourcesStr (selectHeader data) = true) :
    recordFieldsStr r = true := by
  obtain ⟨data2, hd2, hdict, he⟩ := parse_ok_some_inv (some data) nm r h
  have hdd : data = data2 := by injection hd2
  subst hdd
  obtain ⟨a, ha, hkey, hnote, hiss, hrec, f1, f2, f3, f4, f5, f6, f7, hfn⟩ :=
    extractFromHeader_ok_inv (selectHeader data) nm r he
  unfold headerSourcesStr at hs
  simp only [Bool.and_eq_true] at hs
  obtain ⟨⟨⟨⟨hs1, hs2⟩, hs3⟩, hs4⟩, hs5⟩ := hs
  have haf : addrFieldsStr a = true := extract_address_fieldsStr _ a ha hs4 hs5
  unfold addrFieldsStr at haf
  simp only [Bool.and_eq_true] at haf
  obtain ⟨⟨⟨⟨⟨⟨g1, g2⟩, g3⟩, g4⟩, g5⟩, g6⟩, g7⟩ := haf
  unfold recordFieldsStr
  simp only [Bool.and_eq_true]
  rw [hnote, hiss, hrec, f1, f2, f3, f4, f5, f6, f7]
  exact ⟨⟨⟨⟨⟨⟨⟨⟨⟨hs1, hs2⟩, hs3⟩, g1⟩, g2⟩, g3⟩, g4⟩, g5⟩, g6⟩, g7⟩

/-- Counterexample to C9 as stated: an accepted document whose
`emit.xNome` element is present but empty makes `issuer_name` null (not a
string), because `_get` returns the stored `None` verbatim and the code
stores it in the record unchanged. -/
theorem parse_null_field_cex :
    parse_nfe_file (some cexDocC9) "n.xml" = Except.ok (some cexRecC9) ∧
      isStr cexRecC9.issuer_name = false ∧
      cexRecC9.issuer_name = Val.null :=
  ⟨rfl, rfl, rfl⟩

/-- Witness for the amended C9: a document with all-string sources yields
a record whose every field is a string. -/
theorem parse_fields_str_of_sources_str_witness :
    parse_nfe_file (some docC9w) "s.xml" = Except.ok (some recC9w) ∧
      headerSourcesStr (selectHeader docC9w) = true ∧
      recordFieldsStr recC9w = true := by
  have h := parse_fields_str_of_sources_str docC9w "s.xml" recC9w rfl rfl
  exact ⟨rfl, rfl, h⟩

theorem traceFrom_cons (i tot : Nat) (c : Candidate) (rest : List Candidate) :
    traceFrom i tot (c :: rest) =
      BEvent.progress i tot c.name :: BEvent.attempt c.name (candSucceeds c) ::
        traceFrom (i + 1) tot rest := by
  unfold traceFrom
  rw [show (c :: rest).length = rest.length + 1 from rfl, List.range'_succ,
    List.zip_cons_cons, List.flatMap_cons]
  rfl

theorem batchRecords_cons_none (c : Candidate) (rest : List Candidate)
    (ho : candOutcome c = Except.ok none) :
    batchRecords (c :: rest) = batchRecords rest := by
  simp [batchRecords, List.filterMap_cons, recOf, ho]

theorem batchRecords_cons_some (c : Candidate) (rest : List Candidate) (r : InvoiceRecord)
    (ho : candOutcome c = Except.ok (some r)) :
    batchRecords (c :: rest) = r :: batchRecords rest := by
  simp [batchRecords, List.filterMap_cons, recOf, ho]

theorem batchErrors_cons_none (c : Candidate) (rest : List Candidate)
    (ho : candOutcome c = Except.ok none) :
    batchErrors (c :: rest) = c.name :: batchErrors rest := by
  simp [batchErrors, List.filter_cons, candFails, ho]

theorem batchErrors_cons_some (c : Candidate) (rest : List Candidate) (r : InvoiceRecord)
    (ho : candOutcome c = Except.ok (some r)) :
    batchErrors (c :: rest) = batchErrors rest := by
  simp [batchErrors, List.filter_cons, candFails, ho]

theorem runBatch_eq (cands : List Candidate) :
    ∀ i tot, (∀ c ∈ cands, candCrashes c = false) →
      runBatch tot i cands =
        (traceFrom i tot cands, Except.ok (batchRecords cands, batchErrors cands)) := by
  induction cands with
  | nil => intro i tot _; rfl
  | cons c rest ih =>
    intro i tot h
    have hc : candCrashes c = false := h c (List.mem_cons_self c rest)
    have hrest : ∀ x ∈ rest, candCrashes x = false :=
      fun x hx => h x (List.mem_cons_of_mem c hx)
    have hreq := ih (i + 1) tot hrest
    cases ho : candOutcome c with
    | error e => unfold candCrashes at hc; rw [ho] at hc; simp at hc
    | ok o =>
      cases o with
      | none =>
        have hsucc : candSucceeds c = false := by unfold candSucceeds; rw [ho]
        simp only [runBatch, ho]
        rw [hreq, traceFrom_cons, hsucc,
          batchRecords_cons_none c rest ho, batchErrors_cons_none c rest ho]
      | some r =>
        have hsucc : candSucceeds c = true := by unfold candSucceeds; rw [ho]
        simp only [runBatch, ho]
        rw [hreq, traceFrom_cons, hsucc,
          batchRecords_cons_some c rest r ho, batchErrors_cons_some c rest r ho]

theorem length_partition (cands : List Candidate) :
    (∀ c ∈ cands, candCrashes c = false) →
    (batchRecords cands).length + (batchErrors cands).length = cands.length := by
  induction cands with
  | nil => intro _; rfl
  | cons c rest ih =>
    intro h
    have hc : candCrashes c = false := h c (List.mem_cons_self c rest)
    have hrest : ∀ x ∈ rest, candCrashes x = false :=
      fun x hx => h x (List.mem_cons_of_mem c hx)
    have ihr := ih hrest
    cases ho : candOutcome c with
    | error e => unfold candCrashes at hc; rw [ho] at hc; simp at hc
    | ok o =>
      cases o with
      | none =>
        rw [batchRecords_cons_none c rest ho, batchErrors_cons_none c rest ho]
        simp only [List.length_cons]
        omega
      | some r =>
        rw [batchRecords_cons_some c rest r ho, batchErrors_cons_some c rest r ho]
        simp only [List.length_cons]
        omega

theorem traceFrom_progressCur (cands : List Candidate) :
    ∀ i tot, (traceFrom i tot cands).filterMap progressCur = List.range' i cands.length := by
  induction cands with
  | nil => intro i tot; rfl
  | cons c rest ih =>
    intro i tot
    rw [traceFrom_cons]
    simp only [List.filterMap_cons, progressCur]
    rw [ih (i + 1) tot, show (c :: rest).length = rest.length + 1 from rfl,
      List.range'_succ]

theorem traceFrom_attemptName (cands : List Candidate) :
    ∀ i tot, (traceFrom i tot cands).filterMap attemptName = cands.map Candidate.name := by
  induction cands with
  | nil => intro i tot; rfl
  | cons c rest ih =>
    intro i tot
    rw [traceFrom_cons]
    simp only [List.filterMap_cons, attemptName]
    rw [ih (i + 1) tot, List.map_cons]

/-- C6: for a candidate list of size N in which K candidates fail
extraction (`parse_nfe_file` returns `None`) and the other N−K succeed
(no candidate raises), the batch returns exactly the K failed names and
the N−K records, and the whole event trace is: for each candidate in
order, one sink call `(i, N, name)` immediately before that candidate's
extraction, with `i` running 1, 2, ..., N. -/
theorem parse_folder_partition_progress (cands : List Candidate)
    (h : ∀ c ∈ cands, candCrashes c = false) :
    (parse_folder cands).2 = Except.ok (batchRecords cands, batchErrors cands) ∧
    (batchErrors cands).length = (cands.filter candFails).length ∧
    (batchRecords cands).length = cands.length - (cands.filter candFails).length ∧
    (parse_folder cands).1 = batchTrace cands ∧
    (parse_folder cands).1.filterMap progressCur = List.range' 1 cands.length := by
  have hb := runBatch_eq cands 1 cands.length h
  have hlen := length_partition cands h
  have h2 : (parse_folder cands).2 = Except.ok (batchRecords cands, batchErrors cands) := by
    unfold parse_folder
    rw [hb]
  have h1 : (parse_folder cands).1 = batchTrace cands := by
    unfold parse_folder batchTrace
    rw [hb]
  have herr : (batchErrors cands).length = (cands.filter candFails).length := by
    unfold batchErrors
    rw [List.length_map]
  refine ⟨h2, herr, ?_, h1, ?_⟩
  · omega
  · rw [h1]
    exact traceFrom_progressCur cands 1 cands.length

/-- Witness for C6: one good and one malformed candidate give exactly one
record, one failed name, and the expected interleaved trace with currents
1, 2. -/
theorem parse_folder_partition_progress_witness :
    (∀ c ∈ [candGood, candBad], candCrashes c = false) ∧
      (parse_folder [candGood, candBad]).2 =
        Except.ok (batchRecords [candGood, candBad], batchErrors [candGood, candBad]) ∧
      (parse_folder [candGood, candBad]).2 = Except.ok ([recGood], ["bad.xml"]) ∧
      (parse_folder [candGood, candBad]).1 =
        [BEvent.progress 1 2 "good.xml", BEvent.attempt "good.xml" true,
         BEvent.progress 2 2 "bad.xml", BEvent.attempt "bad.xml" false] := by
  have hcr : ∀ c ∈ [candGood, candBad], candCrashes c = false := by decide
  exact ⟨hcr, (parse_folder_partition_progress [candGood, candBad] hcr).1, rfl, rfl⟩

/-- C7: when every candidate either fails extraction for one of the two
per-file reasons (malformed bytes, i.e. no parsed tree, or unrecognized
structure) or succeeds, no exception escapes the batch: every candidate is
attempted in order, and the per-file failures surface only as the
aggregate list of failed file names. -/
theorem parse_folder_absorbs_failures (cands : List Candidate)
    (h : ∀ c ∈ cands, candCrashes c = false) :
    (∀ e, (parse_folder cands).2 ≠ Except.error e) ∧
    (parse_folder cands).1.filterMap attemptName = cands.map Candidate.name ∧
    (parse_folder cands).2 = Except.ok (batchRecords cands, batchErrors cands) := by
  have hb := runBatch_eq cands 1 cands.length h
  have h2 : (parse_folder cands).2 = Except.ok (batchRecords cands, batchErrors cands) := by
    unfold parse_folder
    rw [hb]
  refine ⟨?_, ?_, h2⟩
  · intro e he
    rw [h2] at he
    exact absurd he (by simp)
  · have h1 : (parse_folder cands).1 = traceFrom 1 cands.length cands := by
      unfold parse_folder
      rw [hb]
    rw [h1]
    exact traceFrom_attemptName cands 1 cands.length

/-- Witness for C7: a malformed candidate placed first does not stop the
batch — the following good candidate is still attempted and extracted. -/
theorem parse_folder_absorbs_failures_witness :
    (∀ c ∈ [candBad, candGood], candCrashes c = false) ∧
      (parse_folder [candBad, candGood]).1.filterMap attemptName =
        ["bad.xml", "good.xml"] ∧
      (parse_folder [candBad, candGood]).2 = Except.ok ([recGood], ["bad.xml"]) := by
  have hcr : ∀ c ∈ [candBad, candGood], candCrashes c = false := by decide
  exact ⟨hcr, (parse_folder_absorbs_failures [candBad, candGood] hcr).2.1, rfl⟩

theorem splitSlashAux_ne_nil (cs : List Char) : ∀ acc, splitSlashAux cs acc ≠ [] := by
  induction cs with
  | nil => intro acc; simp [splitSlashAux]
  | cons c cs ih =>
    intro acc
    by_cases hc : c = '/'
    · simp [splitSlashAux, hc]
    · simp only [splitSlashAux, hc, if_false]
      exact ih (c :: acc)

theorem joinSlash_splitSlashAux (cs : List Char) :
    ∀ acc, joinSlash (splitSlashAux cs acc) = String.mk (acc.reverse ++ cs) := by
  induction cs with
  | nil =>
    intro acc
    simp only [splitSlashAux, joinSlash, List.append_nil]
  | cons c cs ih =>
    intro acc
    by_cases hc : c = '/'
    · subst hc
      rw [show splitSlashAux ('/' :: cs) acc = (⟨acc.reverse⟩ : String) :: splitSlashAux cs []
        from by simp [splitSlashAux]]
      obtain ⟨y, ys, hys⟩ := List.exists_cons_of_ne_nil (splitSlashAux_ne_nil cs [])
      rw [hys]
      rw [show joinSlash ((⟨acc.reverse⟩ : String) :: y :: ys) =
        (⟨acc.reverse⟩ : String) ++ "/" ++ joinSlash (y :: ys) from rfl]
      rw [← hys, ih []]
      refine congrArg String.mk ?_
      simp
    · rw [show splitSlashAux (c :: cs) acc = splitSlashAux cs (c :: acc)
        from by simp [splitSlashAux, hc]]
      rw [ih (c :: acc)]
      refine congrArg String.mk ?_
      simp

theorem joinSlash_splitSlash (p : String) : joinSlash (splitSlash p) = p := by
  cases p with
  | mk l => simpa using joinSlash_splitSlashAux l []

theorem pathKey_inj (p q : String) (h : pathKey p = pathKey q) : p = q := by
  have hdata_inj : Function.Injective String.data := by
    intro a b hab
    cases a with
    | mk la =>
      cases b with
      | mk lb => exact congrArg String.mk hab
  have hsplit : splitSlash p = splitSlash q :=
    List.map_injective_iff.mpr hdata_inj h
  calc p = joinSlash (splitSlash p) := (joinSlash_splitSlash p).symm
    _ = joinSlash (splitSlash q) := by rw [hsplit]
    _ = q := joinSlash_splitSlash q

/-- C8 (amended): in directory mode the scanner returns exactly the
regular files under the root whose final component ends with the literal
lowercase `.xml` (the `glob` pattern is case-sensitive on POSIX, so
`.XML` files are excluded — see the counterexample), sorted by Python's
path ordering — lexicographic on the sequence of path components, each
component by code points, which differs from full-path-string order when
one directory component is a proper prefix of another — independent of
the directory-listing order. -/
theorem iter_xml_files_spec (fs gs : List FsEntry) (hp : List.Perm fs gs) :
    List.Sorted pathLe (iter_xml_files fs) ∧
    List.Perm (iter_xml_files fs)
      ((fs.filter (fun e => e.isFile && globXmlMatch e.path)).map FsEntry.path) ∧
    iter_xml_files fs = iter_xml_files gs := by
  haveI : IsAntisymm String pathLe :=
    ⟨fun a b h1 h2 => pathKey_inj a b (le_antisymm h1 h2)⟩
  have hsort : ∀ hs : List FsEntry, List.Sorted pathLe (iter_xml_files hs) :=
    fun hs => List.sorted_insertionSort pathLe _
  have hperm : ∀ hs : List FsEntry, List.Perm (iter_xml_files hs)
      ((hs.filter (fun e => e.isFile && globXmlMatch e.path)).map FsEntry.path) :=
    fun hs => List.perm_insertionSort pathLe _
  refine ⟨hsort fs, hperm fs, ?_⟩
  refine List.eq_of_perm_of_sorted ?_ (hsort fs) (hsort gs)
  exact ((hperm fs).trans (((hp.filter _).map _))).trans (hperm gs).symm

/-- Counterexample to C8 as stated, in both of its refuted parts: (a) a
regular file named `A.XML` — whose extension matches `.xml`
case-insensitively — is not returned, because `glob("**/*.xml")` matches
the literal lowercase suffix only; (b) the output is not sorted
lexicographically by full path string: on `{data/x.xml, data-old/y.xml}`
the scan orders `data/x.xml` first (component order), although as full
strings `data-old/y.xml` is smaller (`'-' < '/'`). -/
theorem iter_xml_files_case_cex :
    endsWithStr (lowerStr "A.XML") ".xml" = true ∧
      cexFs = [{ path := "A.XML", isFile := true }] ∧
      iter_xml_files cexFs = [] ∧
      iter_xml_files [fsD1, fsD2] = ["data/x.xml", "data-old/y.xml"] ∧
      ¬ ("data/x.xml".data ≤ "data-old/y.xml".data) :=
  ⟨rfl, rfl, rfl, rfl, by decide⟩

/-- Witness for the amended C8: the scan keeps exactly the four `.xml`
regular files, sorted by path components (`data/x.xml` before
`data-old/y.xml`), and a permuted directory listing yields the identical
result. -/
theorem iter_xml_files_spec_witness :
    iter_xml_files [fsE2, fsD2, fsE4, fsE1, fsE3, fsD1] =
        ["b.xml", "data/x.xml", "data-old/y.xml", "sub/a.xml"] ∧
      List.Sorted pathLe (iter_xml_files [fsE2, fsD2, fsE4, fsE1, fsE3, fsD1]) ∧
      iter_xml_files [fsE2, fsD2, fsE4, fsE1, fsE3, fsD1] =
        iter_xml_files [fsD2, fsE2, fsE4, fsE1, fsE3, fsD1] := by
  have h := iter_xml_files_spec [fsE2, fsD2, fsE4, fsE1, fsE3, fsD1]
    [fsD2, fsE2, fsE4, fsE1, fsE3, fsD1]
    (List.Perm.swap fsD2 fsE2 [fsE4, fsE1, fsE3, fsD1])
  exact ⟨rfl, h.1, h.2.2⟩

/-- C1 (amended): for every non-empty list of extracted records, the
assembled table is the records sorted ascending by the composite key
`(key, file_name)` (a permutation of the input, sorted under `recLE`), and
every record whose key is the empty string is placed BEFORE all records
with a non-empty key — the empty string is the minimum of the ascending
string order, and `na_position="last"` only concerns NaN values, which
never occur since `key` is always a string. Ties within equal keys are
broken by `file_name` ascending. -/
theorem assemble_sorted_emptyFirst (rs : List InvoiceRecord) (h : rs ≠ []) :
    List.Sorted recLE (assemble rs) ∧
    List.Perm (assemble rs) rs ∧
    List.Pairwise (fun a b => b.key.data = [] → a.key.data = []) (assemble rs) := by
  have hs : List.Sorted recLE (assemble rs) := List.sorted_insertionSort recLE rs
  refine ⟨hs, List.perm_insertionSort recLE rs, ?_⟩
  refine List.Pairwise.imp ?_ hs
  intro a b hab hbk
  rcases hab with hlt | ⟨heq, _⟩
  · rw [hbk] at hlt
    exact absurd hlt (List.Lex.not_nil_right _ _)
  · exact heq.trans hbk

/-- Counterexample to C1 as stated: sorting a record with empty key and
file name `b.xml` together with a record with key `"1"` and file name
`a.xml` puts the empty-key record FIRST, not after the non-empty keys. -/
theorem assemble_emptyLast_cex :
    assemble [cexRecA, cexRecB] = [cexRecA, cexRecB] ∧
      cexRecA.key = "" ∧ cexRecB.key = "1" ∧
      emptyKeysLast (assemble [cexRecA, cexRecB]) = false :=
  ⟨rfl, rfl, rfl, rfl⟩

/-- Witness for the amended C1: sorting the two concrete records moves the
empty-key record to the front, the result is sorted and a permutation of
the input. -/
theorem assemble_sorted_emptyFirst_witness :
    assemble [cexRecB, cexRecA] = [cexRecA, cexRecB] ∧
      List.Sorted recLE (assemble [cexRecB, cexRecA]) ∧
      List.Perm (assemble [cexRecB, cexRecA]) [cexRecB, cexRecA] ∧
      List.Pairwise (fun a b => b.key.data = [] → a.key.data = [])
        (assemble [cexRecB, cexRecA]) := by
  have h := assemble_sorted_emptyFirst [cexRecB, cexRecA] (List.cons_ne_nil _ _)
  exact ⟨rfl, h.1, h.2.1, h.2.2⟩
